import Mathlib
/-!
Verification of the conversation-graph core of the ChatGPT-Branch-Tree
browser extension.

The JavaScript source is embedded shallowly:
* JS `Map` objects (insertion-ordered, keyed) become association lists
  `List (Id × β)` with `mapGet` / `mapSet` mirroring `Map.get` / `Map.set`.
* JS `Set` objects (insertion-ordered, deduplicating) become `List Id`
  with `setAdd` mirroring `Set.add`.
* JS numbers are modelled by `ℚ` (division in `toSeconds` is exact at the
  magnitudes involved), message ids by `String`; where an algorithm is
  id-agnostic the id type is a parameter with decidable equality.
* Possibly-missing / non-string JS values are modelled by `Option`;
  the empty string is treated as falsy exactly where the source tests
  truthiness (`!message.id` etc.).
* JS `Array.prototype.sort` (stable, comparator-based) is modelled by
  `List.mergeSort`.
-/
set_option maxHeartbeats 1000000
set_option linter.unusedSectionVars false
variable {Id : Type} [DecidableEq Id] {β : Type}
/-- Model of `Map.prototype.get`: first entry with the given key. -/
def mapGet [DecidableEq Id] : List (Id × β) → Id → Option β
  | [], _ => none
  | (k, v) :: rest, a => if k = a then some v else mapGet rest a
/-- Model of `Map.prototype.set`: replace in place if the key is present,
otherwise append at the end (JS maps preserve insertion order). -/
def mapSet [DecidableEq Id] : List (Id × β) → Id → β → List (Id × β)
  | [], a, v => [(a, v)]
  | (k, w) :: rest, a, v =>
    if k = a then (a, v) :: rest else (k, w) :: mapSet rest a v
/-- Model of `Set.prototype.add`: append if absent. -/
def setAdd [DecidableEq Id] (s : List Id) (a : Id) : List Id :=
  if a ∈ s then s else s ++ [a]
/-- `MessageNode` from `src/core/conversation-graph.js` (all fields of the
JS constructor). -/
structure MessageNode (Id : Type) where
  id : Id
  text : String
  role : String
  createTime : ℚ
  parentId : Option Id
  childIds : List Id
  editSiblingIds : List Id
  conversationIds : List Id
  isEditVersion : Bool
  editGroupId : Option Id
  hasUnknownEdits : Bool
deriving DecidableEq
/-- `MessageNode.isShared`: `conversationIds.size > 1`. -/
def isShared (node : MessageNode Id) : Bool :=
  node.conversationIds.length > 1
/-- Raw message object passed to `addMessage`.  `none` in an `Option`
field models a missing or non-string JS value. -/
structure RawMessage where
  id : Option String
  text : Option String
  role : String
  createTime : Option ℚ
  parentId : Option String
deriving DecidableEq
/-- JS truthiness of an optional string: `undefined`, a non-string and
`''` are all falsy.  Used for `message.parentId || null` and for the
`!x || typeof x !== 'string'` validation guards. -/
def jsStr (s : Option String) : Option String :=
  match s with
  | some s => if s = "" then none else some s
  | none => none
/-- The `MessageNode` constructor body (`text || ''`, `createTime || 0`,
`parentId || null`, empty relationship sets). -/
def MessageNode.make (id : String) (message : RawMessage) : MessageNode String :=
  { id := id
    text := message.text.getD ""
    role := message.role
    createTime := message.createTime.getD 0
    parentId := jsStr message.parentId
    childIds := []
    editSiblingIds := []
    conversationIds := []
    isEditVersion := false
    editGroupId := none
    hasUnknownEdits := false }
/-- `ConversationGraph` state: `nodes`, `conversations` (only the `path`
component of the stored metadata is modelled; the rest is opaque spread
data never read by the functions below) and `editGroups`. -/
structure ConversationGraph (Id : Type) where
  nodes : List (Id × MessageNode Id)
  conversations : List (Id × List Id)
  editGroups : List (Id × List Id)
deriving DecidableEq
/-- The empty graph (`new ConversationGraph()`). -/
def newGraph : ConversationGraph Id :=
  { nodes := [], conversations := [], editGroups := [] }
/-- `ConversationGraph.addMessage`.  Returns the created / merged node
(`none` on invalid input) together with the updated graph.  The returned
node is the stored one (JS returns a reference into the map). -/
def addMessage (g : ConversationGraph String) (message : Option RawMessage)
    (conversationId : Option String) :
    Option (MessageNode String) × ConversationGraph String :=
  match message with
  | none => (none, g)
  | some msg =>
    match jsStr msg.id with
    | none => (none, g)
    | some id =>
      match jsStr conversationId with
      | none => (none, g)
      | some convId =>
        match mapGet g.nodes id with
        | some node =>
          let node' := { node with conversationIds := setAdd node.conversationIds convId }
          (some node', { g with nodes := mapSet g.nodes id node' })
        | none =>
          let node := MessageNode.make id msg
          let node' := { node with conversationIds := setAdd node.conversationIds convId }
          let nodes1 := mapSet g.nodes id node'
          let nodes2 :=
            match node'.parentId with
            | some pid =>
              match mapGet nodes1 pid with
              | some parent => mapSet nodes1 pid { parent with childIds := setAdd parent.childIds id }
              | none => nodes1
            | none => nodes1
          (mapGet nodes2 id, { g with nodes := nodes2 })
/-- Raw message object passed to `processEditVersions` (only the fields
the ChatGPT strategy reads). `siblingIds = none` models a missing or
non-array value. -/
structure EditMessage where
  id : Option String
  siblingIds : Option (List String)
deriving DecidableEq
/-- The inner `for otherId of sortedSiblings` loop of
`_processChatGPTEdits`: add every other sibling id to a node's
`editSiblingIds` set. -/
def addOthers : List String → String → List String → List String
  | [], _, s => s
  | otherId :: rest, sibId, s =>
    addOthers rest sibId (if otherId ≠ sibId then setAdd s otherId else s)
/-- The body of the `for sibId of sortedSiblings` loop of
`_processChatGPTEdits`: record the sibling in the group's id set and, if
its node exists, mark it as an edit version of the group. -/
def editStep (groupId : String) (sortedSiblings : List String)
    (g : ConversationGraph String) (sibId : String) : ConversationGraph String :=
  let grp := setAdd ((mapGet g.editGroups groupId).getD []) sibId
  let g := { g with editGroups := mapSet g.editGroups groupId grp }
  match mapGet g.nodes sibId with
  | none => g
  | some node =>
    let node' := { node with
      editGroupId := some groupId
      isEditVersion := true
      editSiblingIds := addOthers sortedSiblings sibId node.editSiblingIds }
    { g with nodes := mapSet g.nodes sibId node' }
/-- Loop body of `_processChatGPTEdits`: handle one raw message given the
current `(graph, processedGroups)` accumulator. -/
def processOneEdit (acc : ConversationGraph String × List String)
    (msg : Option EditMessage) : ConversationGraph String × List String :=
  match msg with
  | none => acc
  | some m =>
    match jsStr m.id with
    | none => acc
    | some _ =>
      match m.siblingIds with
      | none => acc
      | some sibs =>
        if sibs.length ≤ 1 then acc
        else
          let sortedSiblings := sibs.mergeSort (fun a b => decide (a ≤ b))
          match sortedSiblings with
          | [] => acc
          | groupId :: _ =>
            if groupId ∈ acc.2 then acc
            else
              let g := acc.1
              let g :=
                if (mapGet g.editGroups groupId).isSome then g
                else { g with editGroups := mapSet g.editGroups groupId [] }
              let g := sortedSiblings.foldl (editStep groupId sortedSiblings) g
              (g, setAdd acc.2 groupId)
/-- `ConversationGraph.processEditVersions` (the ChatGPT strategy;
other platforms are a no-op in the source). -/
def processEditVersions (g : ConversationGraph String)
    (messages : List (Option EditMessage)) (platform : String) :
    ConversationGraph String :=
  if platform = "chatgpt" then (messages.foldl processOneEdit (g, [])).1
  else g
/-- `ConversationGraph.getEditSiblings` (string-typed inputs; the
non-string branch of the JS guard is unreachable for them). -/
def getEditSiblings (g : ConversationGraph String) (messageId : String) :
    List String :=
  if messageId = "" then [messageId]
  else
    match mapGet g.nodes messageId with
    | none => [messageId]
    | some node =>
      match node.editGroupId with
      | none => [messageId]
      | some gid =>
        match mapGet g.editGroups gid with
        | some s => s
        | none => [messageId]
/-- `ConversationGraph.setConversationPath`. -/
def setConversationPath (g : ConversationGraph String) (conversationId : String)
    (path : List String) : ConversationGraph String :=
  if conversationId = "" then g
  else { g with conversations := mapSet g.conversations conversationId path }
/-- `ConversationGraph.getConversationPath`: `conv?.path || []`. -/
def getConversationPath (g : ConversationGraph String) (conversationId : String) :
    List String :=
  if conversationId = "" then []
  else (mapGet g.conversations conversationId).getD []
/-- The forward scan of `findDivergencePoint`: length of the agreeing
prefix (the loop leaves `divergenceIndex` at this value minus one). -/
def divergenceScan [DecidableEq Id] : List Id → List Id → Nat
  | a :: as, b :: bs => if a = b then divergenceScan as bs + 1 else 0
  | _, _ => 0
/-- `ConversationGraph.findDivergencePoint`. -/
def findDivergencePoint (g : ConversationGraph String)
    (childConvId parentConvId : String) : Option String :=
  if childConvId = "" then none
  else if parentConvId = "" then none
  else
    let childPath := getConversationPath g childConvId
    let parentPath := getConversationPath g parentConvId
    if childPath.isEmpty ∨ parentPath.isEmpty then none
    else
      let k := divergenceScan childPath parentPath
      if k = 0 then none else childPath.get? (k - 1)
/-- Model of `Array.prototype.indexOf`: index of the first occurrence. -/
def indexOfOpt [DecidableEq Id] : List Id → Id → Option Nat
  | [], _ => none
  | x :: rest, d => if x = d then some 0 else (indexOfOpt rest d).map (· + 1)
/-- `ConversationGraph.getUniquePathAfter`. -/
def getUniquePathAfter (g : ConversationGraph String)
    (divergenceMessageId conversationId : String) : List String :=
  if divergenceMessageId = "" then []
  else if conversationId = "" then []
  else
    let path := getConversationPath g conversationId
    match indexOfOpt path divergenceMessageId with
    | none => path
    | some i => path.drop (i + 1)
/-- Validation error objects produced by `ConversationGraph.validate`
(one constructor per `type` string, carrying the same fields). -/
inductive ValidationError (Id : Type) where
  | orphaned_node (messageId : Id) (missingParent : Id)
  | inconsistent_parent_child (messageId : Id) (parentId : Id)
  | circular_reference (messageId : Id)
  | missing_edit_sibling (editGroupId : Id) (missingMessageId : Id)
  | edit_group_mismatch (messageId : Id) (expectedGroup : Id) (actualGroup : Option Id)
  | orphaned_edit_group (messageId : Id) (editGroupId : Id)
deriving DecidableEq
/-- `ConversationGraph._findCircularPath`, fuelled.  One unit of fuel per
iteration of the JS `while` loop; the loop adds a fresh id to `pathSet`
every iteration (all but the last taken from the map's keys), so
`nodes.length + 2` fuel is never exhausted.  Returns the id found in the
current path (a cycle) or `none`, together with the updated global
visited set. -/
def findCircularPath [DecidableEq Id] (nodes : List (Id × MessageNode Id)) :
    Nat → List Id → List Id → Id → Option Id × List Id
  | 0, visitedGlobal, _, _ => (none, visitedGlobal)
  | fuel + 1, visitedGlobal, pathSet, currentId =>
    if currentId ∈ visitedGlobal then (none, pathSet.foldl setAdd visitedGlobal)
    else if currentId ∈ pathSet then (some currentId, visitedGlobal)
    else
      let pathSet' := setAdd pathSet currentId
      match mapGet nodes currentId with
      | none => (none, pathSet'.foldl setAdd visitedGlobal)
      | some node =>
        match node.parentId with
        | none => (none, pathSet'.foldl setAdd visitedGlobal)
        | some pid => findCircularPath nodes fuel visitedGlobal pathSet' pid
/-- First pass of `validate`: orphaned nodes (a `parentId` that resolves
to no node). -/
def orphanErrors (g : ConversationGraph Id) : List (ValidationError Id) :=
  g.nodes.filterMap (fun p =>
    match p.2.parentId with
    | some pid =>
      if (mapGet g.nodes pid).isSome then none
      else some (ValidationError.orphaned_node p.1 pid)
    | none => none)
/-- Second pass of `validate`: parent/child asymmetry. -/
def inconsistentErrors (g : ConversationGraph Id) : List (ValidationError Id) :=
  g.nodes.filterMap (fun p =>
    match p.2.parentId with
    | some pid =>
      match mapGet g.nodes pid with
      | some parent =>
        if p.1 ∈ parent.childIds then none
        else some (ValidationError.inconsistent_parent_child p.1 pid)
      | none => none
    | none => none)
/-- Loop body of the circular-reference pass of `validate`: skip ids the
shared visited set already covers, otherwise walk the parent chain. -/
def circStep (nodes : List (Id × MessageNode Id)) (fuel : Nat)
    (acc : List (ValidationError Id) × List Id) (p : Id × MessageNode Id) :
    List (ValidationError Id) × List Id :=
  if p.1 ∈ acc.2 then acc
  else
    match findCircularPath nodes fuel acc.2 [] p.1 with
    | (some circularId, visited') =>
      (acc.1 ++ [ValidationError.circular_reference circularId], visited')
    | (none, visited') => (acc.1, visited')
/-- Third pass of `validate`: circular references, with the shared
visited set threaded through the fold. -/
def circularErrors (g : ConversationGraph Id) : List (ValidationError Id) :=
  (g.nodes.foldl (circStep g.nodes (g.nodes.length + 2))
    (([] : List (ValidationError Id)), ([] : List Id))).1
/-- Fourth pass of `validate`: edit-group forward consistency. -/
def editGroupErrors (g : ConversationGraph Id) : List (ValidationError Id) :=
  g.editGroups.foldl (fun errs p =>
    errs ++ p.2.filterMap (fun sibId =>
      match mapGet g.nodes sibId with
      | none => some (ValidationError.missing_edit_sibling p.1 sibId)
      | some node =>
        if node.editGroupId = some p.1 then none
        else some (ValidationError.edit_group_mismatch sibId p.1 node.editGroupId))) []
/-- Fifth pass of `validate`: edit-group reverse consistency. -/
def orphanGroupErrors (g : ConversationGraph Id) : List (ValidationError Id) :=
  g.nodes.filterMap (fun p =>
    match p.2.editGroupId with
    | some gid =>
      if (mapGet g.editGroups gid).isSome then none
      else some (ValidationError.orphaned_edit_group p.1 gid)
    | none => none)
/-- `ConversationGraph.validate`: the five error-collection passes, in
source order. -/
def validate (g : ConversationGraph Id) : List (ValidationError Id) :=
  orphanErrors g ++ inconsistentErrors g ++ circularErrors g ++
    editGroupErrors g ++ orphanGroupErrors g
/-- Recognizer for `circular_reference` errors. -/
def isCircularError : ValidationError Id → Bool
  | ValidationError.circular_reference _ => true
  | _ => false
/-- Display node consumed by the panel's terminal/continuation annotator
(`src/unnamed/part_002`): only the fields that pass reads.  A missing
`colorIndex` (main line) is `none`; `expanded` is falsy when absent. -/
structure DisplayNode where
  type : String
  expanded : Bool
  colorIndex : Option Nat
  isTerminal : Bool
deriving DecidableEq
/-- Scan of `hasSameContextContinuation`: walk the remaining nodes,
skip `branch` markers, succeed on the first same-`colorIndex` node,
and keep going past differing-context nodes. -/
def scanSameContext (colorIndex : Option Nat) : List DisplayNode → Bool
  | [] => false
  | f :: rest =>
    if f.type = "branch" then scanSameContext colorIndex rest
    else if f.colorIndex = colorIndex then true
    else scanSameContext colorIndex rest
/-- `hasSameContextContinuation(nodes, startIndex, colorIndex)`. -/
def hasSameContextContinuation (nodes : List DisplayNode) (startIndex : Nat)
    (colorIndex : Option Nat) : Bool :=
  scanSameContext colorIndex (nodes.drop startIndex)
/-- The inline forward scan in `markTerminalNodes` for collapsed
`branch` nodes: does the main line (no `colorIndex`, not a branch)
continue anywhere later? -/
def mainLineScan : List DisplayNode → Bool
  | [] => false
  | f :: rest =>
    if f.type = "branch" then mainLineScan rest
    else if f.colorIndex ≠ none then mainLineScan rest
    else true
/-- The per-node decision of `markTerminalNodes` (the body of its loop
at index `i`, written as a function of the whole array). -/
def terminalFlag (nodes : List DisplayNode) (i : Nat) (node : DisplayNode) : Bool :=
  if node.type = "editBranch" then true
  else if node.type = "branch" then
    if node.expanded then false
    else !mainLineScan (nodes.drop (i + 1))
  else
    match nodes.get? (i + 1) with
    | none => true
    | some nextNode =>
      if nextNode.type = "branch" then
        !hasSameContextContinuation nodes (i + 1) node.colorIndex
      else !(node.colorIndex = nextNode.colorIndex : Bool)
/-- Index-carrying traversal implementing the `for` loop of
`markTerminalNodes`. -/
def markFrom (nodes : List DisplayNode) : Nat → List DisplayNode → List DisplayNode
  | _, [] => []
  | i, n :: rest =>
    { n with isTerminal := terminalFlag nodes i n } :: markFrom nodes (i + 1) rest
/-- `markTerminalNodes(nodes)`: same sequence with `isTerminal` set
(only `isTerminal` is written, so the scans read the original values). -/
def markTerminalNodes (nodes : List DisplayNode) : List DisplayNode :=
  markFrom nodes 0 nodes
/-- `toSeconds` from `src/content.js`: millisecond/second normalization. -/
def toSeconds (ts : ℚ) : ℚ :=
  if ts ≤ 0 then 0
  else if ts > 10 ^ 12 then ts / 1000
  else ts
/-- An external branch record (`{childId, title, firstMessage, createdAt}`,
read by `buildDisplayList`; `""` models a missing/falsy string field and
`createdAt` is `branch.createdAt || 0` at the use sites). -/
structure BranchRec where
  childId : String
  title : String
  firstMessage : String
  createdAt : ℚ
deriving DecidableEq
/-- External branch data (`branchData.branches`, keyed by conversation id;
the `titles` component is never read by `buildDisplayList`). -/
structure BranchData where
  branches : List (String × List BranchRec)
deriving DecidableEq
/-- Display item flowing through `buildDisplayList`: one wide record for
the duck-typed JS objects (normalized messages, branch markers, edit
branch markers and the emitted display nodes).  `type = none` models an
absent `type` field (plain normalized messages). -/
structure DItem where
  id : String := ""
  type : Option String := none
  role : String := ""
  text : String := ""
  createTime : ℚ := 0
  depth : Nat := 0
  targetConversationId : Option String := none
  branchIndex : Option Nat := none
  branchLabel : String := ""
  icon : Option String := none
deriving DecidableEq
/-- The title node pushed by `buildDisplayList` when `title` is truthy. -/
def titleDisplayNode (conversationId title : String) : DItem :=
  { id := "title-node", type := some "title", text := title, depth := 0,
    targetConversationId := some conversationId }
/-- One external-branch display node (`branches.map((branch, idx) => ...)`
inside `buildDisplayList`). -/
def branchDisplayNode (idx : Nat) (branch : BranchRec) : DItem :=
  { id := "branch:" ++ branch.childId
    type := some "branch"
    text := if branch.firstMessage ≠ "" then branch.firstMessage
            else if branch.title ≠ "" then branch.title
            else "Branched conversation"
    createTime := toSeconds branch.createdAt
    targetConversationId := some branch.childId
    branchIndex := some idx
    branchLabel := "Branch: " ++ (if branch.title ≠ "" then branch.title else "New Chat")
    depth := 1
    icon := some "branch" }
/-- The final per-item rewrite in `buildDisplayList`'s output loop for a
regular message (`{...item, type:'message', depth:0,
targetConversationId}`). -/
def displayMessage (conversationId : String) (item : DItem) : DItem :=
  { item with
    type := some "message"
    depth := 0
    targetConversationId := some conversationId }
/-- `buildDisplayList(messages, branchData, conversationId, title)` from
`src/content.js`. -/
def buildDisplayList (messages : List DItem) (branchData : Option BranchData)
    (conversationId : String) (title : String) : List DItem :=
  let branches :=
    match branchData with
    | none => []
    | some bd => (mapGet bd.branches conversationId).getD []
  let editBranches := messages.filter (fun m => m.type = some "editBranch")
  let regularMessages := messages.filter (fun m => ¬(m.type = some "editBranch"))
  let userMessages := regularMessages.filter (fun m => m.role = "user")
  let titlePart := if title ≠ "" then [titleDisplayNode conversationId title] else []
  let branchNodes := (List.range branches.length).zip branches |>.map
    (fun p => branchDisplayNode p.1 p.2)
  let allItems := (userMessages ++ branchNodes ++ editBranches).mergeSort
    (fun a b => decide (toSeconds a.createTime ≤ toSeconds b.createTime))
  let mapped := allItems.map (fun item =>
    if item.type = some "branch" then { item with depth := 1 }
    else if item.type = some "editBranch" then
      { item with targetConversationId := some conversationId }
    else displayMessage conversationId item)
  titlePart ++ mapped
/-- Modelled from the spec: endpoint of the longest common prefix of two
paths — the id at the last index where both paths agree, `none` when
either path is empty or they already differ at index 0.  Used as the
spec-side comparator for `findDivergencePoint`. -/
def specDivergencePoint [DecidableEq Id] (p q : List Id) : Option Id :=
  let k := ((p.zip q).takeWhile (fun pr => pr.1 = pr.2)).length
  if k = 0 then none else p.get? (k - 1)
/-- Modelled from the spec: the suffix of `path` strictly after the first
occurrence of `d`, and the entire path unchanged when `d` is absent.
Spec-side comparator for `getUniquePathAfter`. -/
def specUniqueAfter [DecidableEq Id] (d : Id) (path : List Id) : List Id :=
  if d ∈ path then (path.dropWhile (fun x => ¬(x = d))).tail else path
/-- Concrete graph for the C7 witness: one stored conversation path. -/
def gC7 : ConversationGraph String :=
  setConversationPath newGraph "A" ["m1", "m2", "m3", "m4"]
/-- Concrete graph for the C6 witness: the two stored paths of the
claim's example. -/
def gC6 : ConversationGraph String :=
  setConversationPath (setConversationPath newGraph "A" ["m1", "m2", "m3", "m4"])
    "B" ["m1", "m2", "m5"]
/-- The three display nodes used in the C2 example sequences. -/
def ebNodeC2 : DisplayNode :=
  { type := "editBranch", expanded := false, colorIndex := none, isTerminal := false }
/-- A collapsed branch marker. -/
def brNodeC2 : DisplayNode :=
  { type := "branch", expanded := false, colorIndex := none, isTerminal := false }
/-- A plain main-line message node. -/
def msgNodeC2 : DisplayNode :=
  { type := "message", expanded := false, colorIndex := none, isTerminal := false }
/-- C2 counterexample sequence: `editBranch`, then a `branch`, then a
same-context message. -/
def exC2 : List DisplayNode := [ebNodeC2, brNodeC2, msgNodeC2]
/-- C2 example sequence for the witness: message, branch, same-context
message. -/
def exC2w : List DisplayNode := [msgNodeC2, brNodeC2, msgNodeC2]
/-- The node stored by a fresh `addMessage` insert before any
parent-link update: the constructed node with the conversation added. -/
def addedNode (i : String) (m : RawMessage) (c : String) : MessageNode String :=
  { MessageNode.make i m with conversationIds := [c] }
/-- A node with its `childIds` replaced (used to state which child sets a
fresh insert can end up with). -/
def withChildIds (n : MessageNode String) (chd : List String) : MessageNode String :=
  { n with childIds := chd }
/-- A node with one id added to its `childIds` (the parent-link update of
`addMessage`). -/
def withChildAdded (n : MessageNode String) (i : String) : MessageNode String :=
  { n with childIds := setAdd n.childIds i }
/-- The node produced by the merge branch of `addMessage` (existing id):
only `conversationIds` gains the new conversation. -/
def mergedNode (n : MessageNode String) (c : String) : MessageNode String :=
  { n with conversationIds := setAdd n.conversationIds c }
/-- The `nodes` map after a fresh insert of `i` whose parent `pid`
already exists: the new node is appended and the parent gains the child
link. -/
def linkedNodes (nodes : List (String × MessageNode String)) (i : String)
    (m : RawMessage) (c pid : String) (pn : MessageNode String) :
    List (String × MessageNode String) :=
  mapSet (mapSet nodes i (addedNode i m c)) pid (withChildAdded pn i)
/-- Concrete message for the C3 witness. -/
def mC3 : RawMessage :=
  { id := some "m1", text := some "hello", role := "user", createTime := some 5,
    parentId := none }
/-- A conflicting re-insertion of the same id (different text/role/time). -/
def mC3' : RawMessage :=
  { id := some "m1", text := some "other", role := "assistant", createTime := some 9,
    parentId := none }
/-- Concrete child message for the C4 witness (parent `pa`). -/
def childC4 : RawMessage :=
  { id := some "ch", text := some "child", role := "user", createTime := some 2,
    parentId := some "pa" }
/-- Concrete parent message for the C4 witness. -/
def parentC4 : RawMessage :=
  { id := some "pa", text := some "parent", role := "user", createTime := some 1,
    parentId := none }
/-- The comparator `buildDisplayList` passes to the sort (ascending
normalized timestamps). -/
def byTimeLE (a b : DItem) : Bool :=
  decide (toSeconds a.createTime ≤ toSeconds b.createTime)
/-- User message with a millisecond-scale timestamp (C9 counterexample). -/
def uMsgA : DItem := { id := "a", role := "user", createTime := 2 * 10 ^ 12 }
/-- User message with a second-scale timestamp (C9 counterexample). -/
def uMsgB : DItem := { id := "b", role := "user", createTime := 3 * 10 ^ 9 }
/-- C9 counterexample message list: mixed-scale timestamps. -/
def exC9 : List DItem := [uMsgA, uMsgB]
/-- The claim's concrete scenario: three user messages at times 10, 20,
30. -/
def exC9w : List DItem :=
  [{ id := "u1", role := "user", createTime := 10 },
   { id := "u2", role := "user", createTime := 20 },
   { id := "u3", role := "user", createTime := 30 }]
/-- The node produced by `editStep` for an existing sibling node. -/
def editedNode (groupId : String) (sortedSiblings : List String) (sibId : String)
    (node : MessageNode String) : MessageNode String :=
  { node with
    editGroupId := some groupId
    isEditVersion := true
    editSiblingIds := addOthers sortedSiblings sibId node.editSiblingIds }
/-- First edit-sibling node for the C5 witness. -/
def nodeC5a : MessageNode String :=
  { id := "a", text := "v1", role := "user", createTime := 1, parentId := some "p",
    childIds := [], editSiblingIds := [], conversationIds := ["c"],
    isEditVersion := false, editGroupId := none, hasUnknownEdits := false }
/-- Second edit-sibling node for the C5 witness. -/
def nodeC5b : MessageNode String :=
  { id := "b", text := "v2", role := "user", createTime := 2, parentId := some "p",
    childIds := [], editSiblingIds := [], conversationIds := ["c"],
    isEditVersion := false, editGroupId := none, hasUnknownEdits := false }
/-- Graph with the two sibling nodes registered (C5 witness). -/
def gC5 : ConversationGraph String :=
  { nodes := [("a", nodeC5a), ("b", nodeC5b)], conversations := [], editGroups := [] }
/-- Adapter-style messages for the C5 witness: both siblings carry the
same `siblingIds` list (unsorted, self included). -/
def msgsC5 : List (Option EditMessage) :=
  [some { id := some "a", siblingIds := some ["b", "a"] },
   some { id := some "b", siblingIds := some ["b", "a"] }]
/-- A cycle-member node: parent is the next id, child the previous one
(so the parent/child links are mutually consistent). -/
def cycNode (i p ch : String) : MessageNode String :=
  { id := i, text := "", role := "user", createTime := 0, parentId := some p,
    childIds := [ch], editSiblingIds := [], conversationIds := ["c"],
    isEditVersion := false, editGroupId := none, hasUnknownEdits := false }
/-- The three-node `parentId` cycle `A→B→C→A` of the claim. -/
def cycleGraphC1 : ConversationGraph String :=
  { nodes := [("A", cycNode "A" "B" "C"), ("B", cycNode "B" "C" "A"),
      ("C", cycNode "C" "A" "B")],
    conversations := [], editGroups := [] }
/-- Node `i` of an acyclic linear chain of length `n`
(`0 → 1 → ⋯ → n-1`, each `parentId` pointing to the next id). -/
def chainNode (n i : Nat) : MessageNode Nat :=
  { id := i, text := "", role := "user", createTime := 0,
    parentId := if i + 1 < n then some (i + 1) else none,
    childIds := [], editSiblingIds := [], conversationIds := [],
    isEditVersion := false, editGroupId := none, hasUnknownEdits := false }
/-- The linear chain graph of length `n`. -/
def chainGraph (n : Nat) : ConversationGraph Nat :=
  { nodes := (List.range n).map (fun i => (i, chainNode n i)),
    conversations := [], editGroups := [] }
theorem mem_setAdd [DecidableEq Id] {s : List Id} {a b : Id} :
    a ∈ setAdd s b ↔ a ∈ s ∨ a = b := by
  by_cases h : b ∈ s
  · simp only [setAdd, if_pos h]
    constructor
    · exact Or.inl
    · rintro (hm | rfl)
      · exact hm
      · exact h
  · simp [setAdd, if_neg h]
theorem setAdd_of_mem [DecidableEq Id] {s : List Id} {b : Id} (h : b ∈ s) :
    setAdd s b = s := by
  simp [setAdd, if_pos h]
theorem mapGet_mapSet_self [DecidableEq Id] (m : List (Id × β)) (k : Id) (v : β) :
    mapGet (mapSet m k v) k = some v := by
  induction m with
  | nil => simp [mapSet, mapGet]
  | cons p rest ih =>
    by_cases h : p.1 = k
    · simp [mapSet, mapGet, h]
    · simpa [mapSet, mapGet, h] using ih
theorem mapGet_mapSet_ne [DecidableEq Id] (m : List (Id × β)) {k k' : Id} (v : β)
    (h : k' ≠ k) : mapGet (mapSet m k v) k' = mapGet m k' := by
  induction m with
  | nil => simp [mapSet, mapGet, Ne.symm h]
  | cons p rest ih =>
    by_cases hp : p.1 = k
    · subst hp
      simp [mapSet, mapGet, Ne.symm h]
    · by_cases hp' : p.1 = k'
      · simp [mapSet, mapGet, hp, hp', h]
      · simpa [mapSet, mapGet, hp, hp'] using ih
theorem mapSet_congr_self [DecidableEq Id] {m : List (Id × β)} {k : Id} {v : β}
    (h : mapGet m k = some v) : mapSet m k v = m := by
  induction m with
  | nil => simp [mapGet] at h
  | cons p rest ih =>
    obtain ⟨k0, v0⟩ := p
    by_cases hp : k0 = k
    · subst hp
      simp only [mapGet, if_true, eq_self_iff_true, Option.some.injEq] at h
      rw [h.symm] at *
      simp [mapSet]
    · simp only [mapGet, if_neg hp] at h
      simp [mapSet, hp, ih h]
theorem mapGet_eq_none_iff [DecidableEq Id] {m : List (Id × β)} {k : Id} :
    mapGet m k = none ↔ k ∉ m.map Prod.fst := by
  induction m with
  | nil => simp [mapGet]
  | cons p rest ih =>
    by_cases hp : p.1 = k
    · simp [mapGet, hp]
    · simp [mapGet, hp, ih, Ne.symm hp]
theorem map_fst_mapSet_of_none [DecidableEq Id] {m : List (Id × β)} {k : Id} (v : β)
    (h : mapGet m k = none) : (mapSet m k v).map Prod.fst = m.map Prod.fst ++ [k] := by
  induction m with
  | nil => simp [mapSet]
  | cons p rest ih =>
    by_cases hp : p.1 = k
    · simp [mapGet, hp] at h
    · simp only [mapGet, if_neg hp] at h
      simp [mapSet, hp, ih h]
theorem map_fst_mapSet_of_some [DecidableEq Id] {m : List (Id × β)} {k : Id} {v0 : β}
    (v : β) (h : mapGet m k = some v0) :
    (mapSet m k v).map Prod.fst = m.map Prod.fst := by
  induction m with
  | nil => simp [mapGet] at h
  | cons p rest ih =>
    by_cases hp : p.1 = k
    · simp [mapSet, hp]
    · simp only [mapGet, if_neg hp] at h
      simp [mapSet, hp, ih h]
theorem mem_foldl_setAdd [DecidableEq Id] (l : List Id) (v : List Id) (a : Id) :
    a ∈ l.foldl setAdd v ↔ a ∈ v ∨ a ∈ l := by
  induction l generalizing v with
  | nil => simp
  | cons x rest ih =>
    simp only [List.foldl_cons, ih, mem_setAdd, List.mem_cons]
    tauto
/-- **C8** — `toSeconds` normalizes timestamps: for every input `ts`,
if `ts > 1e12` the result is `ts / 1000`, if `0 < ts ≤ 1e12` the result
is `ts` unchanged, and if `ts ≤ 0` the result is `0`. -/
theorem toSeconds_spec (ts : ℚ) :
    (ts > 10 ^ 12 → toSeconds ts = ts / 1000) ∧
    (0 < ts → ts ≤ 10 ^ 12 → toSeconds ts = ts) ∧
    (ts ≤ 0 → toSeconds ts = 0) := by
  refine ⟨fun h => ?_, fun h1 h2 => ?_, fun h => ?_⟩
  · rw [toSeconds, if_neg (by linarith), if_pos h]
  · rw [toSeconds, if_neg (not_le.mpr h1), if_neg (not_lt.mpr h2)]
  · rw [toSeconds, if_pos h]
/-- Witness for C8 at the four concrete inputs of the claim. -/
theorem toSeconds_spec_witness :
    toSeconds 1700000000000 = 1700000000 ∧ toSeconds 1700000000 = 1700000000 ∧
    toSeconds 0 = 0 ∧ toSeconds (-5) = 0 := by
  refine ⟨?_, ?_, ?_, ?_⟩
  · rw [(toSeconds_spec 1700000000000).1 (by norm_num)]
    norm_num
  · exact (toSeconds_spec 1700000000).2.1 (by norm_num) (by norm_num)
  · exact (toSeconds_spec 0).2.2 (by norm_num)
  · exact (toSeconds_spec (-5)).2.2 (by norm_num)
/-- **C10** — `addMessage` on invalid input (a non-object message, a
missing/non-string message id, or a missing/non-string conversation id)
returns `null` and leaves the graph — nodes, conversations and
editGroups — entirely unchanged. -/
theorem addMessage_invalid (g : ConversationGraph String)
    (message : Option RawMessage) (conversationId : Option String)
    (h : message = none ∨ (∃ m, message = some m ∧ jsStr m.id = none) ∨
      jsStr conversationId = none) :
    addMessage g message conversationId = (none, g) := by
  rcases h with h | ⟨m, rfl, hid⟩ | hconv
  · subst h
    rfl
  · simp [addMessage, hid]
  · cases message with
    | none => rfl
    | some m =>
      cases hid : jsStr m.id with
      | none => simp [addMessage, hid]
      | some i => simp [addMessage, hid, hconv]
/-- Witness for C10: the three invalid-input shapes at concrete values. -/
theorem addMessage_invalid_witness :
    addMessage newGraph none (some "c") = (none, newGraph) ∧
    addMessage newGraph (some ⟨none, none, "user", none, none⟩) (some "c") =
      (none, newGraph) ∧
    addMessage newGraph (some ⟨some "m", none, "user", none, none⟩) none =
      (none, newGraph) :=
  ⟨addMessage_invalid _ _ _ (Or.inl rfl),
   addMessage_invalid _ _ _ (Or.inr (Or.inl ⟨_, rfl, rfl⟩)),
   addMessage_invalid _ _ _ (Or.inr (Or.inr rfl))⟩
theorem indexOfOpt_eq_none [DecidableEq Id] {p : List Id} {d : Id} :
    indexOfOpt p d = none ↔ d ∉ p := by
  induction p with
  | nil => simp [indexOfOpt]
  | cons x rest ih =>
    by_cases hx : x = d
    · simp [indexOfOpt, hx]
    · simp [indexOfOpt, hx, ih, Ne.symm hx]
theorem drop_indexOfOpt [DecidableEq Id] {p : List Id} {d : Id} {i : Nat}
    (h : indexOfOpt p d = some i) :
    p.drop (i + 1) = (p.dropWhile (fun x => ¬(x = d))).tail := by
  induction p generalizing i with
  | nil => simp [indexOfOpt] at h
  | cons x rest ih =>
    by_cases hx : x = d
    · simp only [indexOfOpt, if_pos hx, Option.some.injEq] at h
      subst h
      simp [List.dropWhile, hx]
    · simp only [indexOfOpt, if_neg hx] at h
      obtain ⟨j, hj, rfl⟩ := Option.map_eq_some'.mp h
      simpa [List.dropWhile, hx] using ih hj
/-- **C7** — `getUniquePathAfter(d, c)` returns the suffix of `c`'s
stored path strictly after the first occurrence of `d`; when `d` does
not occur in the path it returns the entire path unchanged (fallback,
not an error). -/
theorem getUniquePathAfter_spec (g : ConversationGraph String) (d c : String)
    (hd : d ≠ "") (hc : c ≠ "") :
    getUniquePathAfter g d c = specUniqueAfter d (getConversationPath g c) ∧
    (d ∉ getConversationPath g c →
      getUniquePathAfter g d c = getConversationPath g c) := by
  have main : getUniquePathAfter g d c = specUniqueAfter d (getConversationPath g c) := by
    rw [getUniquePathAfter, if_neg hd, if_neg hc]
    cases hidx : indexOfOpt (getConversationPath g c) d with
    | none =>
      have hni : d ∉ getConversationPath g c := indexOfOpt_eq_none.mp hidx
      simp [hidx, specUniqueAfter, hni]
    | some i =>
      have hmem : d ∈ getConversationPath g c := by
        by_contra hmem
        rw [indexOfOpt_eq_none.mpr hmem] at hidx
        exact Option.noConfusion hidx
      simp only [hidx, specUniqueAfter, if_pos hmem]
      exact drop_indexOfOpt hidx
  refine ⟨main, fun hmem => ?_⟩
  rw [main, specUniqueAfter, if_neg hmem]
/-- Witness for C7: the suffix after `m2`, and the full-path fallback for
an id absent from the path. -/
theorem getUniquePathAfter_spec_witness :
    getUniquePathAfter gC7 "m2" "A" = ["m3", "m4"] ∧
    getUniquePathAfter gC7 "zz" "A" = ["m1", "m2", "m3", "m4"] := by
  constructor
  · rw [(getUniquePathAfter_spec gC7 "m2" "A" (by decide) (by decide)).1]
    decide
  · rw [(getUniquePathAfter_spec gC7 "zz" "A" (by decide) (by decide)).1]
    decide
theorem divergenceScan_eq [DecidableEq Id] (p q : List Id) :
    divergenceScan p q = ((p.zip q).takeWhile (fun pr => pr.1 = pr.2)).length := by
  induction p generalizing q with
  | nil => simp [divergenceScan]
  | cons a as ih =>
    cases q with
    | nil => simp [divergenceScan]
    | cons b bs =>
      rw [List.zip_cons_cons, List.takeWhile_cons]
      by_cases hab : a = b
      · simp [divergenceScan, hab, ih]
      · simp [divergenceScan, hab]
/-- **C6** — `findDivergencePoint(a, b)` returns the id at the last index
of the longest common prefix of the two stored paths (position-by-position
from index 0, stopping at the first mismatch), and returns `none` whenever
either path is empty or the paths already differ at index 0. -/
theorem findDivergencePoint_spec (g : ConversationGraph String) (a b : String)
    (ha : a ≠ "") (hb : b ≠ "") :
    findDivergencePoint g a b =
      specDivergencePoint (getConversationPath g a) (getConversationPath g b) ∧
    ((getConversationPath g a = [] ∨ getConversationPath g b = []) →
      findDivergencePoint g a b = none) ∧
    ((getConversationPath g a).head? ≠ (getConversationPath g b).head? →
      findDivergencePoint g a b = none) := by
  have main : findDivergencePoint g a b =
      specDivergencePoint (getConversationPath g a) (getConversationPath g b) := by
    rw [findDivergencePoint, if_neg ha, if_neg hb]
    by_cases hpq : (getConversationPath g a).isEmpty ∨ (getConversationPath g b).isEmpty
    · rw [if_pos hpq]
      rcases hpq with hp | hp <;> rw [List.isEmpty_iff] at hp <;>
        simp [specDivergencePoint, hp]
    · rw [if_neg hpq, specDivergencePoint, divergenceScan_eq]
  refine ⟨main, fun hemp => ?_, fun hhead => ?_⟩
  · rw [main]
    rcases hemp with hp | hp <;> simp [specDivergencePoint, hp]
  · rw [main]
    cases hp : getConversationPath g a with
    | nil => simp [specDivergencePoint]
    | cons x xs =>
      cases hq : getConversationPath g b with
      | nil => simp [specDivergencePoint]
      | cons y ys =>
        rw [hp, hq] at hhead
        have hxy : ¬(x = y) := by
          intro e
          exact hhead (by rw [e, List.head?_cons, List.head?_cons])
        simp [specDivergencePoint, List.takeWhile, hxy]
/-- Witness for C6: paths `[m1,m2,m3,m4]` and `[m1,m2,m5]` diverge at
`m2`. -/
theorem findDivergencePoint_spec_witness :
    findDivergencePoint gC6 "A" "B" = some "m2" := by
  rw [(findDivergencePoint_spec gC6 "A" "B" (by decide) (by decide)).1]
  decide
theorem scanSameContext_iff (ci : Option Nat) (l : List DisplayNode) :
    scanSameContext ci l = true ↔
      ∃ f ∈ l, f.type ≠ "branch" ∧ f.colorIndex = ci := by
  induction l with
  | nil => simp [scanSameContext]
  | cons f rest ih =>
    by_cases hb : f.type = "branch"
    · simp [scanSameContext, hb, ih]
    · by_cases hc : f.colorIndex = ci
      · simp [scanSameContext, hb, hc]
      · simp [scanSameContext, hb, hc, ih]
theorem markFrom_get (nodes : List DisplayNode) (l : List DisplayNode) (i k : Nat) :
    (markFrom nodes i l).get? k = (l.get? k).map
      (fun n => { n with isTerminal := terminalFlag nodes (i + k) n }) := by
  induction l generalizing i k with
  | nil => simp [markFrom]
  | cons n rest ih =>
    cases k with
    | zero => simp [markFrom]
    | succ k =>
      have harith : i + (k + 1) = (i + 1) + k := by omega
      rw [harith]
      simpa [markFrom] using ih (i + 1) k
/-- **C2 (amended)** — in `markTerminalNodes`, every node that is neither
`branch`- nor `editBranch`-typed and whose immediate successor is a
`branch`-type node is marked terminal iff no node with the same
`colorIndex` (`undefined` matching only `undefined`) occurs anywhere
later in the sequence, where the forward scan skips `branch`-type nodes
and does not stop at the first differing-`colorIndex` node.  (The claim's
original "every non-branch node" version fails for `editBranch` nodes,
which are unconditionally terminal.) -/
theorem markTerminalNodes_branch_successor (nodes : List DisplayNode) (i : Nat)
    (node next : DisplayNode) (hn : nodes.get? i = some node)
    (hb : node.type ≠ "branch") (heb : node.type ≠ "editBranch")
    (hnext : nodes.get? (i + 1) = some next) (hnb : next.type = "branch") :
    ∃ m, (markTerminalNodes nodes).get? i = some m ∧
      (m.isTerminal = true ↔
        ¬ ∃ f ∈ nodes.drop (i + 1), f.type ≠ "branch" ∧
          f.colorIndex = node.colorIndex) := by
  refine ⟨{ node with isTerminal := terminalFlag nodes i node }, ?_, ?_⟩
  · rw [markTerminalNodes, markFrom_get, hn]
    simp
  · have hflag : terminalFlag nodes i node =
        !hasSameContextContinuation nodes (i + 1) node.colorIndex := by
      rw [terminalFlag, if_neg heb, if_neg hb, hnext]
      simp [hnb]
    simp only [hflag, hasSameContextContinuation, Bool.not_eq_true',
      ← scanSameContext_iff node.colorIndex (nodes.drop (i + 1))]
    exact Bool.eq_false_iff
/-- C2 counterexample: the node at index 0 is non-`branch`, its successor
is a `branch`, and a same-`colorIndex` non-branch node occurs later, yet
`markTerminalNodes` marks it terminal — refuting the claim's "for every
non-branch node" biconditional (the node is an `editBranch`, which the
code makes unconditionally terminal). -/
theorem markTerminalNodes_branch_successor_cex :
    (exC2.get? 0).map DisplayNode.type = some "editBranch" ∧
    ("editBranch" : String) ≠ "branch" ∧
    (exC2.get? 1).map DisplayNode.type = some "branch" ∧
    (∃ f ∈ exC2.drop 1, f.type ≠ "branch" ∧ f.colorIndex = none) ∧
    ((markTerminalNodes exC2).get? 0).map DisplayNode.isTerminal = some true := by
  decide
/-- Witness for the amended C2 at a concrete sequence. -/
theorem markTerminalNodes_branch_successor_witness :
    ∃ m, (markTerminalNodes exC2w).get? 0 = some m ∧
      (m.isTerminal = true ↔
        ¬ ∃ f ∈ exC2w.drop 1, f.type ≠ "branch" ∧
          f.colorIndex = msgNodeC2.colorIndex) :=
  markTerminalNodes_branch_successor exC2w 0 msgNodeC2 brNodeC2 rfl
    (by decide) (by decide) rfl (by decide)
theorem jsStr_of_ne {i : String} (hi : i ≠ "") : jsStr (some i) = some i := by
  rw [jsStr]
  simp [hi]
theorem setAdd_nil [DecidableEq Id] (a : Id) : setAdd ([] : List Id) a = [a] := by
  simp [setAdd]
theorem addMessage_merge (g : ConversationGraph String) (m : RawMessage) (c i : String)
    (hid : m.id = some i) (hi : i ≠ "") (hc : c ≠ "")
    {n : MessageNode String} (hn : mapGet g.nodes i = some n) :
    addMessage g (some m) (some c) =
      (some (mergedNode n c), { g with nodes := mapSet g.nodes i (mergedNode n c) }) := by
  have hj : jsStr m.id = some i := by rw [hid]; exact jsStr_of_ne hi
  simp only [addMessage, hj, jsStr_of_ne hc, hn, mergedNode]
theorem addMessage_fresh (g : ConversationGraph String) (m : RawMessage) (c i : String)
    (hid : m.id = some i) (hi : i ≠ "") (hc : c ≠ "")
    (hfresh : mapGet g.nodes i = none) :
    ∃ chd, (chd = [] ∨ chd = [i]) ∧
      (addMessage g (some m) (some c)).1 = some (withChildIds (addedNode i m c) chd) ∧
      mapGet (addMessage g (some m) (some c)).2.nodes i =
        some (withChildIds (addedNode i m c) chd) ∧
      (addMessage g (some m) (some c)).2.nodes.map Prod.fst =
        g.nodes.map Prod.fst ++ [i] := by
  have hj : jsStr m.id = some i := by rw [hid]; exact jsStr_of_ne hi
  cases hp : jsStr m.parentId with
  | none =>
    refine ⟨[], Or.inl rfl, ?_, ?_, ?_⟩ <;>
      simp [addMessage, hj, jsStr_of_ne hc, hfresh, hp, addedNode, withChildIds,
        MessageNode.make, setAdd_nil, mapGet_mapSet_self, map_fst_mapSet_of_none]
  | some pid =>
    by_cases hpi : pid = i
    · subst hpi
      refine ⟨[pid], Or.inr rfl, ?_, ?_, ?_⟩ <;>
        simp [addMessage, hj, jsStr_of_ne hc, hfresh, hp, addedNode, withChildIds,
          MessageNode.make, setAdd_nil, mapGet_mapSet_self, map_fst_mapSet_of_none,
          map_fst_mapSet_of_some]
    · cases hpp : mapGet (mapSet g.nodes i (addedNode i m c)) pid with
      | none =>
        have hpp' : mapGet g.nodes pid = none := by
          rw [← mapGet_mapSet_ne g.nodes (addedNode i m c) hpi]
          exact hpp
        refine ⟨[], Or.inl rfl, ?_, ?_, ?_⟩ <;>
          simp [addMessage, hj, jsStr_of_ne hc, hfresh, hp, addedNode, withChildIds,
            MessageNode.make, setAdd_nil, mapGet_mapSet_self, map_fst_mapSet_of_none,
            mapGet_mapSet_ne, hpp', hpi]
      | some parent =>
        have hpp' : mapGet g.nodes pid = some parent := by
          rw [← mapGet_mapSet_ne g.nodes (addedNode i m c) hpi]
          exact hpp
        refine ⟨[], Or.inl rfl, ?_, ?_, ?_⟩ <;>
          simp [addMessage, hj, jsStr_of_ne hc, hfresh, hp, addedNode, withChildIds,
            MessageNode.make, setAdd_nil, mapGet_mapSet_self, map_fst_mapSet_of_none,
            map_fst_mapSet_of_some, mapGet_mapSet_ne, hpp', hpi, Ne.symm hpi]
theorem addMessage_fresh_parent_present (g : ConversationGraph String)
    (m : RawMessage) (c i pid : String)
    (hid : m.id = some i) (hi : i ≠ "") (hc : c ≠ "")
    (hfresh : mapGet g.nodes i = none)
    (hp : jsStr m.parentId = some pid) (hpi : pid ≠ i)
    {pn : MessageNode String} (hpn : mapGet g.nodes pid = some pn) :
    addMessage g (some m) (some c) =
      (some (addedNode i m c),
       { g with nodes := linkedNodes g.nodes i m c pid pn }) := by
  have hj : jsStr m.id = some i := by rw [hid]; exact jsStr_of_ne hi
  simp [addMessage, hj, jsStr_of_ne hc, hfresh, hp, addedNode, withChildAdded,
    linkedNodes, MessageNode.make, setAdd_nil, mapGet_mapSet_self, mapGet_mapSet_ne,
    hpn, hpi, Ne.symm hpi]
theorem addMessage_fresh_parent_absent (g : ConversationGraph String)
    (m : RawMessage) (c i pid : String)
    (hid : m.id = some i) (hi : i ≠ "") (hc : c ≠ "")
    (hfresh : mapGet g.nodes i = none)
    (hp : jsStr m.parentId = some pid) (hpi : pid ≠ i)
    (hpn : mapGet g.nodes pid = none) :
    addMessage g (some m) (some c) =
      (some (addedNode i m c),
       { g with nodes := mapSet g.nodes i (addedNode i m c) }) := by
  have hj : jsStr m.id = some i := by rw [hid]; exact jsStr_of_ne hi
  simp [addMessage, hj, jsStr_of_ne hc, hfresh, hp, addedNode,
    MessageNode.make, setAdd_nil, mapGet_mapSet_self, mapGet_mapSet_ne, hpn, hpi]
/-- **C3** — `addMessage` is idempotent and deduplicating: a second
identical call returns the same node and graph as the first; the node's
`conversationIds` holds `c` exactly once; inserting the same id under a
second conversation id leaves exactly one node, whose `conversationIds`
has size 2, whose `isShared()` is true, and whose `text`, `role` and
`createTime` are those of the first insertion. -/
theorem addMessage_idempotent_dedup (g : ConversationGraph String)
    (m m' : RawMessage) (c c' i : String)
    (hid : m.id = some i) (hid' : m'.id = some i) (hi : i ≠ "")
    (hc : c ≠ "") (hc' : c' ≠ "") (hcc : c' ≠ c)
    (hfresh : mapGet g.nodes i = none) :
    (addMessage (addMessage g (some m) (some c)).2 (some m) (some c) =
      addMessage g (some m) (some c)) ∧
    (∃ n, (addMessage g (some m) (some c)).1 = some n ∧
      n.conversationIds = [c] ∧ n.conversationIds.count c = 1 ∧
      n.conversationIds.length = 1) ∧
    (∃ n2,
      mapGet (addMessage (addMessage g (some m) (some c)).2 (some m')
        (some c')).2.nodes i = some n2 ∧
      n2.conversationIds = [c, c'] ∧ n2.conversationIds.length = 2 ∧
      isShared n2 = true ∧
      n2.text = m.text.getD "" ∧ n2.role = m.role ∧
      n2.createTime = m.createTime.getD 0 ∧
      ((addMessage (addMessage g (some m) (some c)).2 (some m')
        (some c')).2.nodes.map Prod.fst).count i = 1) := by
  obtain ⟨chd, hchd, h1, hstore, hkeys⟩ := addMessage_fresh g m c i hid hi hc hfresh
  have hconv : (withChildIds (addedNode i m c) chd).conversationIds = [c] := rfl
  have hmerge := addMessage_merge (addMessage g (some m) (some c)).2 m c i hid hi hc hstore
  have hmn : mergedNode (withChildIds (addedNode i m c) chd) c =
      withChildIds (addedNode i m c) chd := by
    simp [mergedNode, withChildIds, addedNode, MessageNode.make, setAdd]
  have hA : addMessage (addMessage g (some m) (some c)).2 (some m) (some c) =
      addMessage g (some m) (some c) := by
    rw [hmerge, hmn, mapSet_congr_self hstore, ← h1]
  have hmerge' := addMessage_merge (addMessage g (some m) (some c)).2 m' c' i
    hid' hi hc' hstore
  have hconv2 : (mergedNode (withChildIds (addedNode i m c) chd) c').conversationIds =
      [c, c'] := by
    simp [mergedNode, withChildIds, addedNode, MessageNode.make, setAdd, hcc]
  refine ⟨hA, ⟨_, h1, hconv, by simp [hconv], by simp [hconv]⟩, ?_⟩
  refine ⟨mergedNode (withChildIds (addedNode i m c) chd) c', ?_, hconv2,
    by simp [hconv2], by simp [isShared, hconv2], rfl, rfl, rfl, ?_⟩
  · rw [hmerge']
    exact mapGet_mapSet_self _ _ _
  · rw [hmerge']
    have hk2 : (mapSet (addMessage g (some m) (some c)).2.nodes i
        (mergedNode (withChildIds (addedNode i m c) chd) c')).map Prod.fst =
        (addMessage g (some m) (some c)).2.nodes.map Prod.fst :=
      map_fst_mapSet_of_some _ hstore
    rw [hk2, hkeys, List.count_append]
    have hnotmem : i ∉ g.nodes.map Prod.fst := mapGet_eq_none_iff.mp hfresh
    rw [List.count_eq_zero.mpr hnotmem]
    simp
/-- **C4** — parent-first insertion contract: adding a child before its
parent leaves the later-inserted parent's `childIds` without the child's
id, and a subsequent re-add of the child still performs no backfill;
conversely, when the parent already exists at the time the child is
added, the parent's `childIds` gains the child's id. -/
theorem addMessage_parent_first (g : ConversationGraph String)
    (child parent : RawMessage) (cid pid c : String)
    (hcid : child.id = some cid) (hpid : parent.id = some pid)
    (hcp : child.parentId = some pid)
    (hne : cid ≠ pid) (hcid0 : cid ≠ "") (hpid0 : pid ≠ "") (hc : c ≠ "")
    (hfc : mapGet g.nodes cid = none) (hfp : mapGet g.nodes pid = none) :
    (∃ pn, mapGet (addMessage (addMessage g (some child) (some c)).2
        (some parent) (some c)).2.nodes pid = some pn ∧ cid ∉ pn.childIds) ∧
    (∃ pn, mapGet (addMessage (addMessage (addMessage g (some child) (some c)).2
        (some parent) (some c)).2 (some child) (some c)).2.nodes pid = some pn ∧
      cid ∉ pn.childIds) ∧
    (∃ pn, mapGet (addMessage (addMessage g (some parent) (some c)).2
        (some child) (some c)).2.nodes pid = some pn ∧ cid ∈ pn.childIds) := by
  have hjp : jsStr child.parentId = some pid := by rw [hcp]; exact jsStr_of_ne hpid0
  have hnep : pid ≠ cid := Ne.symm hne
  -- scenario (i): child first, then parent
  have hadd1 := addMessage_fresh_parent_absent g child c cid pid hcid hcid0 hc hfc
    hjp hnep hfp
  have hfp1 : mapGet (addMessage g (some child) (some c)).2.nodes pid = none := by
    rw [hadd1]
    rw [mapGet_mapSet_ne g.nodes (addedNode cid child c) hnep]
    exact hfp
  obtain ⟨chd, hchd, _, hstorep, hkeysp⟩ :=
    addMessage_fresh (addMessage g (some child) (some c)).2 parent c pid
      hpid hpid0 hc hfp1
  have hcidmem : cid ∉ chd := by
    rcases hchd with rfl | rfl
    · simp
    · simp [hne]
  have hpart1 : ∃ pn, mapGet (addMessage (addMessage g (some child) (some c)).2
      (some parent) (some c)).2.nodes pid = some pn ∧ cid ∉ pn.childIds :=
    ⟨withChildIds (addedNode pid parent c) chd, hstorep, hcidmem⟩
  -- re-adding the child after the parent exists still performs no backfill
  have hcmem : cid ∈ (addMessage (addMessage g (some child) (some c)).2
      (some parent) (some c)).2.nodes.map Prod.fst := by
    rw [hkeysp, hadd1]
    simp only [List.mem_append]
    left
    have := map_fst_mapSet_of_none (addedNode cid child c) hfc
    simp only [this]
    simp
  have hpart2 : ∃ pn, mapGet (addMessage (addMessage (addMessage g (some child)
      (some c)).2 (some parent) (some c)).2 (some child) (some c)).2.nodes pid =
      some pn ∧ cid ∉ pn.childIds := by
    cases hgc : mapGet (addMessage (addMessage g (some child) (some c)).2
        (some parent) (some c)).2.nodes cid with
    | none => exact absurd hcmem (mapGet_eq_none_iff.mp hgc)
    | some nc =>
      have hmerge := addMessage_merge (addMessage (addMessage g (some child)
        (some c)).2 (some parent) (some c)).2 child c cid hcid hcid0 hc hgc
      rw [hmerge]
      refine ⟨withChildIds (addedNode pid parent c) chd, ?_, hcidmem⟩
      rw [show ({ (addMessage (addMessage g (some child) (some c)).2 (some parent)
          (some c)).2 with nodes := mapSet (addMessage (addMessage g (some child)
          (some c)).2 (some parent) (some c)).2.nodes cid (mergedNode nc c) } :
          ConversationGraph String).nodes = mapSet (addMessage (addMessage g
          (some child) (some c)).2 (some parent) (some c)).2.nodes cid
          (mergedNode nc c) from rfl]
      rw [mapGet_mapSet_ne _ (mergedNode nc c) hnep]
      exact hstorep
  -- scenario (ii): parent first, then child
  obtain ⟨chd0, hchd0, _, hstoreP, hkeysP⟩ := addMessage_fresh g parent c pid
    hpid hpid0 hc hfp
  have hfc1 : mapGet (addMessage g (some parent) (some c)).2.nodes cid = none := by
    apply mapGet_eq_none_iff.mpr
    rw [hkeysP]
    simp only [List.mem_append, List.mem_singleton]
    rintro (hm | rfl)
    · exact mapGet_eq_none_iff.mp hfc hm
    · exact hne rfl
  have hadd2 := addMessage_fresh_parent_present (addMessage g (some parent)
    (some c)).2 child c cid pid hcid hcid0 hc hfc1 hjp hnep hstoreP
  have hpart3 : ∃ pn, mapGet (addMessage (addMessage g (some parent) (some c)).2
      (some child) (some c)).2.nodes pid = some pn ∧ cid ∈ pn.childIds := by
    rw [hadd2]
    refine ⟨withChildAdded (withChildIds (addedNode pid parent c) chd0) cid, ?_, ?_⟩
    · exact mapGet_mapSet_self _ _ _
    · simp [withChildAdded, mem_setAdd]
  exact ⟨hpart1, hpart2, hpart3⟩
/-- Witness for C3 at concrete inputs: repeated insertion is a no-op and
a second conversation id dedups into one shared node. -/
theorem addMessage_idempotent_dedup_witness :
    (addMessage (addMessage newGraph (some mC3) (some "c1")).2 (some mC3)
      (some "c1") = addMessage newGraph (some mC3) (some "c1")) ∧
    (∃ n2, mapGet (addMessage (addMessage newGraph (some mC3) (some "c1")).2
        (some mC3') (some "c2")).2.nodes "m1" = some n2 ∧
      n2.conversationIds = ["c1", "c2"] ∧ isShared n2 = true ∧
      n2.text = "hello" ∧ n2.role = "user" ∧ n2.createTime = 5) := by
  have h := addMessage_idempotent_dedup newGraph mC3 mC3' "c1" "c2" "m1" rfl rfl
    (by decide) (by decide) (by decide) (by decide) rfl
  obtain ⟨n2, h1, h2, _, h4, h5, h6, h7, _⟩ := h.2.2
  exact ⟨h.1, n2, h1, h2, h4, h5, h6, h7⟩
/-- Witness for C4 at concrete inputs: child-before-parent leaves no
link, parent-before-child creates it. -/
theorem addMessage_parent_first_witness :
    (∃ pn, mapGet (addMessage (addMessage newGraph (some childC4) (some "c")).2
        (some parentC4) (some "c")).2.nodes "pa" = some pn ∧
      "ch" ∉ pn.childIds) ∧
    (∃ pn, mapGet (addMessage (addMessage newGraph (some parentC4) (some "c")).2
        (some childC4) (some "c")).2.nodes "pa" = some pn ∧
      "ch" ∈ pn.childIds) := by
  have h := addMessage_parent_first newGraph childC4 parentC4 "ch" "pa" "c" rfl rfl
    rfl (by decide) (by decide) (by decide) (by decide) rfl rfl
  exact ⟨h.1, h.2.2⟩
theorem byTimeLE_trans (a b c : DItem) (h1 : byTimeLE a b) (h2 : byTimeLE b c) :
    byTimeLE a c := by
  simp only [byTimeLE, decide_eq_true_eq] at *
  exact le_trans h1 h2
theorem byTimeLE_total (a b : DItem) : byTimeLE a b || byTimeLE b a := by
  simp only [byTimeLE]
  rcases le_total (toSeconds a.createTime) (toSeconds b.createTime) with h | h <;>
    simp [h]
theorem filter_key_mergeSort (u : List DItem) (q : ℚ) :
    (u.mergeSort byTimeLE).filter (fun d => toSeconds d.createTime = q) =
      u.filter (fun d => toSeconds d.createTime = q) := by
  set p : DItem → Bool := fun d => decide (toSeconds d.createTime = q) with hp
  have hmem : ∀ d ∈ u.filter p, toSeconds d.createTime = q := by
    intro d hd
    have := List.of_mem_filter hd
    simpa [hp] using this
  have hc1 : (u.filter p).Pairwise (fun a b => byTimeLE a b = true) := by
    apply List.pairwise_of_forall_mem_list
    intro a ha b hb
    simp only [byTimeLE, decide_eq_true_eq, hmem a ha, hmem b hb, le_refl]
  have hbig : List.Sublist (u.filter p) (u.mergeSort byTimeLE) :=
    List.sublist_mergeSort byTimeLE_trans byTimeLE_total hc1 (List.filter_sublist u)
  have hsub2 : List.Sublist (u.filter p) ((u.mergeSort byTimeLE).filter p) := by
    have := hbig.filter p
    rwa [List.filter_filter, show (fun a => p a && p a) = p from by funext a; cases p a <;> simp] at this
  have hperm : ((u.mergeSort byTimeLE).filter p).Perm (u.filter p) :=
    (List.mergeSort_perm u byTimeLE).filter p
  exact (List.Sublist.eq_of_length hsub2 hperm.length_eq.symm).symm
/-- Evaluation of `buildDisplayList` under a truthy title and no branch
data: the title node followed by the sorted, finalized user messages. -/
theorem buildDisplayList_no_branches (messages : List DItem) (cid title : String)
    (htitle : title ≠ "") (hnorm : ∀ mg ∈ messages, mg.type = none) :
    buildDisplayList messages none cid title =
      titleDisplayNode cid title ::
        ((messages.filter (fun mg => mg.role = "user")).mergeSort byTimeLE).map
          (displayMessage cid) := by
  have heb : messages.filter (fun mg => mg.type = some "editBranch") = [] := by
    rw [List.filter_eq_nil_iff]
    intro a ha
    simp [hnorm a ha]
  have hreg : messages.filter (fun mg => ¬(mg.type = some "editBranch")) = messages := by
    rw [List.filter_eq_self]
    intro a ha
    simp [hnorm a ha]
  set u : List DItem := messages.filter (fun mg => mg.role = "user") with hu
  have humem : ∀ x ∈ u.mergeSort byTimeLE, x.type = none := by
    intro x hx
    rw [List.mem_mergeSort] at hx
    exact hnorm x (List.mem_of_mem_filter hx)
  have hmapped : (u.mergeSort byTimeLE).map (fun item =>
      if item.type = some "branch" then { item with depth := 1 }
      else if item.type = some "editBranch" then
        { item with targetConversationId := some cid }
      else displayMessage cid item) =
      (u.mergeSort byTimeLE).map (displayMessage cid) := by
    apply List.map_congr_left
    intro a ha
    simp [humem a ha]
  rw [buildDisplayList]
  simp only [heb, hreg, ← hu, List.length_nil, List.range_zero,
    List.zip_nil_left, List.map_nil, List.append_nil, byTimeLE]
  rw [if_pos htitle]
  simp only [List.singleton_append]
  rw [← hmapped]
  rfl
/-- **C9 (amended)** — `buildDisplayList` with a title and no branch data
emits the title node at position 0 followed by exactly the
`role == "user"` messages as `message` display nodes at depth 0, ordered
by ascending *normalized* timestamp `toSeconds(createTime)` (not raw
`createTime`), with ties in the normalized value keeping the original
relative order. -/
theorem buildDisplayList_sorted (messages : List DItem) (cid title : String)
    (htitle : title ≠ "") (hnorm : ∀ mg ∈ messages, mg.type = none) :
    ∃ rest, buildDisplayList messages none cid title =
        titleDisplayNode cid title :: rest ∧
      rest.Perm ((messages.filter (fun mg => mg.role = "user")).map
        (displayMessage cid)) ∧
      List.Pairwise (fun a b => toSeconds a.createTime ≤ toSeconds b.createTime)
        rest ∧
      (∀ q : ℚ, rest.filter (fun d => toSeconds d.createTime = q) =
        ((messages.filter (fun mg => mg.role = "user")).map
          (displayMessage cid)).filter (fun d => toSeconds d.createTime = q)) := by
  set u : List DItem := messages.filter (fun mg => mg.role = "user") with hu
  have hbdl := buildDisplayList_no_branches messages cid title htitle hnorm
  rw [← hu] at hbdl
  refine ⟨(u.mergeSort byTimeLE).map (displayMessage cid), hbdl, ?_, ?_, ?_⟩
  · exact (List.mergeSort_perm u byTimeLE).map _
  · rw [List.pairwise_map]
    have hs := List.sorted_mergeSort byTimeLE_trans byTimeLE_total u
    apply hs.imp
    intro a b hab
    simpa [byTimeLE] using hab
  · intro q
    have hkey : ∀ x : DItem, (displayMessage cid x).createTime = x.createTime :=
      fun x => rfl
    rw [List.filter_map, List.filter_map]
    have hcomp : ((fun d : DItem => decide (toSeconds d.createTime = q)) ∘
        displayMessage cid) = fun d : DItem => decide (toSeconds d.createTime = q) := by
      funext d
      simp [Function.comp, hkey]
    rw [hcomp]
    rw [filter_key_mergeSort]
/-- C9 counterexample: with user messages at raw `createTime`
`2e12` (milliseconds) and `3e9` (seconds), the output keeps the
`2e12` message first because the sort compares normalized
`toSeconds` values — so the emitted message nodes are *not* in ascending
raw `createTime` order as the claim states. -/
theorem buildDisplayList_ascending_cex :
    buildDisplayList exC9 none "cv" "Hi" =
      [titleDisplayNode "cv" "Hi", displayMessage "cv" uMsgA,
        displayMessage "cv" uMsgB] ∧
    (displayMessage "cv" uMsgA).type = some "message" ∧
    (displayMessage "cv" uMsgB).type = some "message" ∧
    (displayMessage "cv" uMsgA).createTime = 2 * 10 ^ 12 ∧
    (displayMessage "cv" uMsgB).createTime = 3 * 10 ^ 9 ∧
    ¬((2 * 10 ^ 12 : ℚ) ≤ 3 * 10 ^ 9) := by
  have hle : byTimeLE uMsgA uMsgB = true := by
    rw [byTimeLE, decide_eq_true_eq]
    rw [show uMsgA.createTime = 2 * 10 ^ 12 from rfl,
      show uMsgB.createTime = 3 * 10 ^ 9 from rfl]
    rw [toSeconds, if_neg (by norm_num), if_pos (by norm_num)]
    rw [toSeconds, if_neg (by norm_num), if_neg (by norm_num)]
    norm_num
  have huser : exC9.filter (fun mg => mg.role = "user") = exC9 := by
    rw [List.filter_eq_self]
    intro a ha
    simp only [exC9, List.mem_cons, List.not_mem_nil, or_false] at ha
    rcases ha with rfl | rfl <;> decide
  have hms : exC9.mergeSort byTimeLE = exC9 := by
    apply List.mergeSort_of_sorted
    constructor
    · intro b hb
      rw [List.mem_singleton] at hb
      subst hb
      exact hle
    · exact List.pairwise_singleton _ _
  have h := buildDisplayList_no_branches exC9 "cv" "Hi" (by decide) (by
    intro mg hmg
    simp only [exC9, List.mem_cons, List.not_mem_nil, or_false] at hmg
    rcases hmg with rfl | rfl <;> rfl)
  rw [huser, hms] at h
  refine ⟨h, rfl, rfl, rfl, rfl, by norm_num⟩
/-- Witness for the amended C9 at the claim's concrete scenario. -/
theorem buildDisplayList_sorted_witness :
    ∃ rest, buildDisplayList exC9w none "cv" "Hi" =
        titleDisplayNode "cv" "Hi" :: rest ∧
      rest.Perm ((exC9w.filter (fun mg => mg.role = "user")).map
        (displayMessage "cv")) ∧
      List.Pairwise (fun a b => toSeconds a.createTime ≤ toSeconds b.createTime)
        rest ∧
      (∀ q : ℚ, rest.filter (fun d => toSeconds d.createTime = q) =
        ((exC9w.filter (fun mg => mg.role = "user")).map
          (displayMessage "cv")).filter (fun d => toSeconds d.createTime = q)) :=
  buildDisplayList_sorted exC9w "cv" "Hi" (by decide) (by
    intro mg hmg
    simp only [exC9w, List.mem_cons, List.not_mem_nil, or_false] at hmg
    rcases hmg with rfl | rfl | rfl <;> rfl)
theorem mem_addOthers (L : List String) (sibId : String) (s : List String)
    (t : String) :
    t ∈ addOthers L sibId s ↔ t ∈ s ∨ (t ∈ L ∧ t ≠ sibId) := by
  induction L generalizing s with
  | nil => simp [addOthers]
  | cons a L ih =>
    rw [addOthers]
    by_cases ha : a = sibId
    · subst ha
      rw [if_neg (by simp), ih]
      constructor
      · rintro (h | ⟨hL, hne⟩)
        · exact Or.inl h
        · exact Or.inr ⟨List.mem_cons_of_mem _ hL, hne⟩
      · rintro (h | ⟨hL, hne⟩)
        · exact Or.inl h
        · rcases List.mem_cons.mp hL with rfl | hL
          · exact absurd rfl hne
          · exact Or.inr ⟨hL, hne⟩
    · rw [if_pos ha, ih]
      rw [mem_setAdd]
      constructor
      · rintro ((h | rfl) | ⟨hL, hne⟩)
        · exact Or.inl h
        · exact Or.inr ⟨List.mem_cons_self _ _, ha⟩
        · exact Or.inr ⟨List.mem_cons_of_mem _ hL, hne⟩
      · rintro (h | ⟨hL, hne⟩)
        · exact Or.inl (Or.inl h)
        · rcases List.mem_cons.mp hL with rfl | hL
          · exact Or.inl (Or.inr rfl)
          · exact Or.inr ⟨hL, hne⟩
theorem editStep_nodes_other (gid : String) (L : List String)
    (g : ConversationGraph String) (sibId k : String) (hk : k ≠ sibId) :
    mapGet (editStep gid L g sibId).nodes k = mapGet g.nodes k := by
  rw [editStep]
  cases hn : mapGet g.nodes sibId with
  | none => rfl
  | some node => exact mapGet_mapSet_ne _ _ hk
theorem editStep_nodes_self (gid : String) (L : List String)
    (g : ConversationGraph String) (sibId : String) {node : MessageNode String}
    (hn : mapGet g.nodes sibId = some node) :
    mapGet (editStep gid L g sibId).nodes sibId =
      some (editedNode gid L sibId node) := by
  rw [editStep, hn]
  exact mapGet_mapSet_self _ _ _
theorem editStep_groups (gid : String) (L : List String)
    (g : ConversationGraph String) (sibId : String) :
    mapGet (editStep gid L g sibId).editGroups gid =
      some (setAdd ((mapGet g.editGroups gid).getD []) sibId) := by
  rw [editStep]
  cases hn : mapGet g.nodes sibId with
  | none => exact mapGet_mapSet_self _ _ _
  | some node => exact mapGet_mapSet_self _ _ _
theorem foldl_editStep_nodes_other (gid : String) (full : List String)
    (L : List String) (g : ConversationGraph String) (k : String) (hk : k ∉ L) :
    mapGet (L.foldl (editStep gid full) g).nodes k = mapGet g.nodes k := by
  induction L generalizing g with
  | nil => rfl
  | cons a L ih =>
    rw [List.foldl_cons]
    rw [ih _ (fun h => hk (List.mem_cons_of_mem _ h))]
    exact editStep_nodes_other gid full g a k (fun h => hk (h ▸ List.mem_cons_self _ _))
theorem foldl_editStep_nodes (gid : String) (full L : List String)
    (g : ConversationGraph String) (hnd : L.Nodup) (s : String) (hs : s ∈ L)
    {node : MessageNode String} (hn : mapGet g.nodes s = some node) :
    mapGet (L.foldl (editStep gid full) g).nodes s =
      some (editedNode gid full s node) := by
  induction L generalizing g with
  | nil => cases hs
  | cons a L ih =>
    rw [List.foldl_cons]
    rcases List.mem_cons.mp hs with rfl | hs'
    · rw [foldl_editStep_nodes_other gid full L _ s (List.Nodup.not_mem hnd)]
      exact editStep_nodes_self gid full g s hn
    · have hsa : s ≠ a := fun h => (List.Nodup.not_mem hnd) (h ▸ hs')
      have hn' : mapGet (editStep gid full g a).nodes s = some node := by
        rw [editStep_nodes_other gid full g a s hsa]
        exact hn
      exact ih _ (List.Nodup.of_cons hnd) hs' hn'
theorem foldl_editStep_groups (gid : String) (full L : List String)
    (g : ConversationGraph String) {S0 : List String}
    (hS : mapGet g.editGroups gid = some S0) :
    ∃ S, mapGet (L.foldl (editStep gid full) g).editGroups gid = some S ∧
      ∀ t, t ∈ S ↔ t ∈ S0 ∨ t ∈ L := by
  induction L generalizing g S0 with
  | nil => exact ⟨S0, hS, by simp⟩
  | cons a L ih =>
    rw [List.foldl_cons]
    have hstep : mapGet (editStep gid full g a).editGroups gid =
        some (setAdd S0 a) := by
      rw [editStep_groups, hS]
      rfl
    obtain ⟨S, h1, h2⟩ := ih _ hstep
    refine ⟨S, h1, fun t => ?_⟩
    rw [h2, mem_setAdd, List.mem_cons]
    tauto
theorem processOneEdit_some (acc : ConversationGraph String × List String)
    (mid : String) (hmid : mid ≠ "") (sibs : List String)
    (hlen : ¬(sibs.length ≤ 1)) (gid : String) (tl : List String)
    (hsorted : sibs.mergeSort (fun a b => decide (a ≤ b)) = gid :: tl) :
    processOneEdit acc (some ⟨some mid, some sibs⟩) =
      if gid ∈ acc.2 then acc
      else
        ((gid :: tl).foldl (editStep gid (gid :: tl))
          (if (mapGet acc.1.editGroups gid).isSome then acc.1
           else { acc.1 with editGroups := mapSet acc.1.editGroups gid [] }),
         setAdd acc.2 gid) := by
  rw [processOneEdit]
  simp only [jsStr_of_ne hmid, if_neg hlen, hsorted]
theorem strLE_trans (a b c : String) (h1 : (fun x y : String => decide (x ≤ y)) a b)
    (h2 : (fun x y : String => decide (x ≤ y)) b c) :
    (fun x y : String => decide (x ≤ y)) a c := by
  simp only [decide_eq_true_eq] at *
  exact le_trans h1 h2
theorem strLE_total (a b : String) :
    ((fun x y : String => decide (x ≤ y)) a b ||
      (fun x y : String => decide (x ≤ y)) b a) = true := by
  simp only
  rcases le_total a b with h | h <;> simp [h]
theorem foldl_processOneEdit_skip (sibs : List String) (gid : String)
    (tl : List String)
    (hsorted : sibs.mergeSort (fun a b => decide (a ≤ b)) = gid :: tl)
    (hlen : ¬(sibs.length ≤ 1))
    (msgs : List (Option EditMessage))
    (hmsgs : ∀ e ∈ msgs, ∃ mid, e = some ⟨some mid, some sibs⟩ ∧ mid ≠ "")
    (acc : ConversationGraph String × List String) (hmem : gid ∈ acc.2) :
    msgs.foldl processOneEdit acc = acc := by
  induction msgs with
  | nil => rfl
  | cons e msgs ih =>
    obtain ⟨mid, rfl, hmid⟩ := hmsgs _ (List.mem_cons_self _ _)
    rw [List.foldl_cons, processOneEdit_some acc mid hmid sibs hlen gid tl hsorted,
      if_pos hmem]
    exact ih (fun e' he' => hmsgs e' (List.mem_cons_of_mem _ he'))
/-- **C5** — after `processEditVersions` over messages carrying one
sibling set `sibs` (≥2 edit siblings sharing a parent; as supplied by
the ChatGPT adapter each message's `siblingIds` lists all siblings,
itself included), every member node's `editGroupId` equals the
lexicographically smallest sibling id, every member has
`isEditVersion = true` with `editSiblingIds` containing all other
members, and `getEditSiblings` on any member returns the full sibling
set including the member itself. -/
theorem processEditVersions_group (g : ConversationGraph String)
    (sibs : List String) (msgs : List (Option EditMessage))
    (hnd : sibs.Nodup) (hlen : 2 ≤ sibs.length)
    (hne : ∀ s ∈ sibs, s ≠ "")
    (hEG : g.editGroups = [])
    (hnodes : ∀ s ∈ sibs, (mapGet g.nodes s).isSome = true)
    (hmsgs0 : msgs ≠ [])
    (hmsgs : ∀ e ∈ msgs, ∃ mid, e = some ⟨some mid, some sibs⟩ ∧ mid ≠ "") :
    ∃ gid, gid ∈ sibs ∧ (∀ t ∈ sibs, gid ≤ t) ∧
      (∀ s ∈ sibs, ∃ node,
        mapGet (processEditVersions g msgs "chatgpt").nodes s = some node ∧
        node.editGroupId = some gid ∧ node.isEditVersion = true ∧
        (∀ t ∈ sibs, t ≠ s → t ∈ node.editSiblingIds)) ∧
      (∀ s ∈ sibs, ∀ t,
        t ∈ getEditSiblings (processEditVersions g msgs "chatgpt") s ↔
          t ∈ sibs) := by
  have hlen' : ¬(sibs.length ≤ 1) := by omega
  obtain ⟨e0, msgs', rfl⟩ : ∃ e0 msgs', msgs = e0 :: msgs' := by
    cases msgs with
    | nil => exact absurd rfl hmsgs0
    | cons e0 msgs' => exact ⟨e0, msgs', rfl⟩
  obtain ⟨mid, rfl, hmid⟩ := hmsgs _ (List.mem_cons_self _ _)
  obtain ⟨gid, tl, hsorted⟩ : ∃ gid tl,
      sibs.mergeSort (fun a b => decide (a ≤ b)) = gid :: tl := by
    cases hms : sibs.mergeSort (fun a b => decide (a ≤ b)) with
    | nil =>
      have hl0 : (sibs.mergeSort (fun a b => decide (a ≤ b))).length = sibs.length :=
        List.length_mergeSort sibs
      rw [hms] at hl0
      simp at hl0
      omega
    | cons gid tl => exact ⟨gid, tl, rfl⟩
  have hsortmem : ∀ t, t ∈ gid :: tl ↔ t ∈ sibs := by
    intro t
    rw [← hsorted, List.mem_mergeSort]
  have hmemgid : gid ∈ sibs := (hsortmem gid).mp (List.mem_cons_self _ _)
  have hpw : (gid :: tl).Pairwise
      (fun a b => (fun x y : String => decide (x ≤ y)) a b = true) := by
    rw [← hsorted]
    exact List.sorted_mergeSort strLE_trans strLE_total sibs
  have hmin : ∀ t ∈ sibs, gid ≤ t := by
    intro t ht
    rcases List.mem_cons.mp ((hsortmem t).mpr ht) with rfl | htl
    · exact le_refl t
    · have := (List.pairwise_cons.mp hpw).1 t htl
      simpa using this
  have hstep1 : processOneEdit (g, []) (some ⟨some mid, some sibs⟩) =
      ((gid :: tl).foldl (editStep gid (gid :: tl))
        { g with editGroups := [(gid, [])] }, [gid]) := by
    rw [processOneEdit_some _ mid hmid sibs hlen' gid tl hsorted]
    rw [if_neg (List.not_mem_nil gid)]
    rw [hEG]
    simp [mapGet, mapSet, setAdd]
  have hG1 : processEditVersions g (some ⟨some mid, some sibs⟩ :: msgs') "chatgpt" =
      (gid :: tl).foldl (editStep gid (gid :: tl))
        { g with editGroups := [(gid, [])] } := by
    rw [processEditVersions, if_pos rfl, List.foldl_cons, hstep1]
    rw [foldl_processOneEdit_skip sibs gid tl hsorted hlen' msgs'
      (fun e' he' => hmsgs e' (List.mem_cons_of_mem _ he')) _
      (List.mem_singleton.mpr rfl)]
  have hG0groups : mapGet ({ g with editGroups := [(gid, [])] } :
      ConversationGraph String).editGroups gid = some [] := by
    simp [mapGet]
  obtain ⟨S, hSget, hSmem⟩ := foldl_editStep_groups gid (gid :: tl) (gid :: tl) _
    hG0groups
  have hSmem' : ∀ t, t ∈ S ↔ t ∈ sibs := by
    intro t
    rw [hSmem t]
    simp [hsortmem t]
  have hsortnd : (gid :: tl).Nodup := by
    rw [← hsorted]
    exact (List.Perm.nodup_iff (List.mergeSort_perm sibs _)).mpr hnd
  refine ⟨gid, hmemgid, hmin, ?_, ?_⟩
  · intro s hs
    obtain ⟨node, hnode⟩ := Option.isSome_iff_exists.mp (hnodes s hs)
    have hG0nodes : mapGet ({ g with editGroups := [(gid, [])] } :
        ConversationGraph String).nodes s = some node := hnode
    have hstore := foldl_editStep_nodes gid (gid :: tl) (gid :: tl)
      { g with editGroups := [(gid, [])] } hsortnd s ((hsortmem s).mpr hs) hG0nodes
    rw [hG1]
    refine ⟨editedNode gid (gid :: tl) s node, hstore, rfl, rfl, ?_⟩
    intro t ht hts
    have : t ∈ addOthers (gid :: tl) s node.editSiblingIds :=
      (mem_addOthers _ _ _ _).mpr (Or.inr ⟨(hsortmem t).mpr ht, hts⟩)
    exact this
  · intro s hs t
    obtain ⟨node, hnode⟩ := Option.isSome_iff_exists.mp (hnodes s hs)
    have hG0nodes : mapGet ({ g with editGroups := [(gid, [])] } :
        ConversationGraph String).nodes s = some node := hnode
    have hstore := foldl_editStep_nodes gid (gid :: tl) (gid :: tl)
      { g with editGroups := [(gid, [])] } hsortnd s ((hsortmem s).mpr hs) hG0nodes
    rw [hG1, getEditSiblings, if_neg (hne s hs), hstore]
    simp only [editedNode]
    rw [hSget]
    exact hSmem' t
/-- Witness for C5 at a concrete two-sibling group. -/
theorem processEditVersions_group_witness :
    ∃ gid, gid ∈ ["b", "a"] ∧ (∀ t ∈ ["b", "a"], gid ≤ t) ∧
      (∀ s ∈ ["b", "a"], ∃ node,
        mapGet (processEditVersions gC5 msgsC5 "chatgpt").nodes s = some node ∧
        node.editGroupId = some gid ∧ node.isEditVersion = true ∧
        (∀ t ∈ ["b", "a"], t ≠ s → t ∈ node.editSiblingIds)) ∧
      (∀ s ∈ ["b", "a"], ∀ t,
        t ∈ getEditSiblings (processEditVersions gC5 msgsC5 "chatgpt") s ↔
          t ∈ ["b", "a"]) :=
  processEditVersions_group gC5 ["b", "a"] msgsC5 (by decide) (by decide)
    (by decide) rfl (by decide) (by decide)
    (by
      intro e he
      simp only [msgsC5, List.mem_cons, List.not_mem_nil, or_false] at he
      rcases he with rfl | rfl
      · exact ⟨"a", rfl, by decide⟩
      · exact ⟨"b", rfl, by decide⟩)
theorem mapGet_map_self {β : Type} (f : Nat → β) (l : List Nat) (j : Nat) :
    mapGet (l.map (fun i => (i, f i))) j = if j ∈ l then some (f j) else none := by
  induction l with
  | nil => simp [mapGet]
  | cons a l ih =>
    by_cases ha : a = j
    · subst ha
      simp [mapGet]
    · simp [mapGet, ha, ih, Ne.symm ha]
theorem chainGraph_mapGet (n j : Nat) (hj : j < n) :
    mapGet (chainGraph n).nodes j = some (chainNode n j) := by
  rw [chainGraph]
  rw [mapGet_map_self (chainNode n) (List.range n) j]
  rw [if_pos (List.mem_range.mpr hj)]
theorem findCircularPath_chain (n : Nat) : ∀ (fuel j : Nat) (ps : List Nat),
    j < n → (∀ x ∈ ps, x < j) → n ≤ fuel + j →
    (findCircularPath (chainGraph n).nodes fuel [] ps j).1 = none ∧
    ∀ x, (x < n ∧ j ≤ x) ∨ x ∈ ps →
      x ∈ (findCircularPath (chainGraph n).nodes fuel [] ps j).2 := by
  intro fuel
  induction fuel with
  | zero =>
    intro j ps hj hps hfuel
    omega
  | succ fuel ih =>
    intro j ps hj hps hfuel
    have hjnv : j ∉ ([] : List Nat) := List.not_mem_nil j
    have hjnp : j ∉ ps := fun h => absurd (hps j h) (by omega)
    rw [findCircularPath, if_neg hjnv, if_neg hjnp, chainGraph_mapGet n j hj]
    dsimp only [chainNode]
    by_cases hnext : j + 1 < n
    · rw [if_pos hnext]
      have hrec := ih (j + 1) (setAdd ps j) hnext
        (by
          intro x hx
          rcases mem_setAdd.mp hx with hx | rfl
          · exact Nat.lt_succ_of_lt (hps x hx)
          · exact Nat.lt_succ_self x)
        (by omega)
      refine ⟨hrec.1, fun x hx => hrec.2 x ?_⟩
      rcases hx with ⟨hxn, hjx⟩ | hxp
      · by_cases hxj : x = j
        · exact Or.inr (mem_setAdd.mpr (Or.inr hxj))
        · exact Or.inl ⟨hxn, by omega⟩
      · exact Or.inr (mem_setAdd.mpr (Or.inl hxp))
    · rw [if_neg hnext]
      refine ⟨rfl, fun x hx => ?_⟩
      rw [mem_foldl_setAdd]
      rcases hx with ⟨hxn, hjx⟩ | hxp
      · have hxj : x = j := by omega
        subst hxj
        exact Or.inr (mem_setAdd.mpr (Or.inr rfl))
      · exact Or.inr (mem_setAdd.mpr (Or.inl hxp))
theorem foldl_circStep_skip (nodes : List (Id × MessageNode Id)) (fuel : Nat)
    (l : List (Id × MessageNode Id)) (errs : List (ValidationError Id))
    (visited : List Id) (hl : ∀ p ∈ l, p.1 ∈ visited) :
    l.foldl (circStep nodes fuel) (errs, visited) = (errs, visited) := by
  induction l with
  | nil => rfl
  | cons p l ih =>
    rw [List.foldl_cons]
    rw [show circStep nodes fuel (errs, visited) p = (errs, visited) from by
      rw [circStep, if_pos (hl p (List.mem_cons_self _ _))]]
    exact ih (fun q hq => hl q (List.mem_cons_of_mem _ hq))
theorem circularErrors_chain (n : Nat) : circularErrors (chainGraph n) = [] := by
  cases n with
  | zero => rfl
  | succ m =>
    have hnodes : (chainGraph (m + 1)).nodes =
        (0, chainNode (m + 1) 0) ::
          ((List.range m).map Nat.succ).map (fun i => (i, chainNode (m + 1) i)) := by
      rw [chainGraph]
      rw [List.range_succ_eq_map]
      rw [List.map_cons, List.map_map]
    have hlen : (chainGraph (m + 1)).nodes.length = m + 1 := by
      rw [chainGraph]
      simp
    have hwalk := findCircularPath_chain (m + 1) (m + 1 + 2) 0 []
      (Nat.succ_pos m) (by simp) (by omega)
    rw [circularErrors, hlen]
    rw [hnodes] at hwalk ⊢
    rw [List.foldl_cons]
    have hstep : circStep ((0, chainNode (m + 1) 0) ::
        ((List.range m).map Nat.succ).map (fun i => (i, chainNode (m + 1) i)))
        (m + 1 + 2) ([], []) (0, chainNode (m + 1) 0) =
        ([], (findCircularPath ((0, chainNode (m + 1) 0) ::
          ((List.range m).map Nat.succ).map (fun i => (i, chainNode (m + 1) i)))
          (m + 1 + 2) [] [] 0).2) := by
      rw [circStep]
      rw [if_neg (List.not_mem_nil _)]
      cases hpair : findCircularPath ((0, chainNode (m + 1) 0) ::
          ((List.range m).map Nat.succ).map (fun i => (i, chainNode (m + 1) i)))
          (m + 1 + 2) [] [] 0 with
      | mk o v =>
        have ho : o = none := by
          have h1 := hwalk.1
          rw [hpair] at h1
          exact h1
        subst ho
        rfl
    rw [hstep]
    rw [foldl_circStep_skip]
    intro p hp
    obtain ⟨i, hi, rfl⟩ := List.mem_map.mp hp
    obtain ⟨k, hk, rfl⟩ := List.mem_map.mp hi
    apply hwalk.2
    left
    rw [List.mem_range] at hk
    exact ⟨by omega, by omega⟩
theorem countP_orphanErrors (g : ConversationGraph Id) :
    (orphanErrors g).countP isCircularError = 0 := by
  rw [List.countP_eq_zero]
  intro e he
  obtain ⟨p, _, hf⟩ := List.mem_filterMap.mp he
  cases hpp : p.2.parentId with
  | none => simp [hpp] at hf
  | some pid =>
    simp only [hpp] at hf
    by_cases hx : (mapGet g.nodes pid).isSome
    · rw [if_pos hx] at hf
      cases hf
    · rw [if_neg hx] at hf
      cases hf
      simp [isCircularError]
theorem countP_inconsistentErrors (g : ConversationGraph Id) :
    (inconsistentErrors g).countP isCircularError = 0 := by
  rw [List.countP_eq_zero]
  intro e he
  obtain ⟨p, _, hf⟩ := List.mem_filterMap.mp he
  cases hpp : p.2.parentId with
  | none => simp [hpp] at hf
  | some pid =>
    simp only [hpp] at hf
    cases hpar : mapGet g.nodes pid with
    | none => simp [hpar] at hf
    | some parent =>
      simp only [hpar] at hf
      by_cases hx : p.1 ∈ parent.childIds
      · rw [if_pos hx] at hf
        cases hf
      · rw [if_neg hx] at hf
        cases hf
        simp [isCircularError]
theorem countP_orphanGroupErrors (g : ConversationGraph Id) :
    (orphanGroupErrors g).countP isCircularError = 0 := by
  rw [List.countP_eq_zero]
  intro e he
  obtain ⟨p, _, hf⟩ := List.mem_filterMap.mp he
  cases hpp : p.2.editGroupId with
  | none => simp [hpp] at hf
  | some gid =>
    simp only [hpp] at hf
    by_cases hx : (mapGet g.editGroups gid).isSome
    · rw [if_pos hx] at hf
      cases hf
    · rw [if_neg hx] at hf
      cases hf
      simp [isCircularError]
/-- C1 counterexample: the single cycle `A→B→C→A` yields **three**
`circular_reference` errors from `validate` (one per starting node in
the cycle), not exactly one. -/
theorem validate_cycle_cex :
    (validate cycleGraphC1).countP isCircularError = 3 ∧
    ¬((validate cycleGraphC1).countP isCircularError = 1) := by
  constructor <;> decide
/-- **C1 (amended)** — for the three-node `parentId` cycle `A→B→C→A`,
`validate` reports one `circular_reference` error per cycle node (three
in total, since a detected cycle path is never added to the shared
visited set, so detection restarts from every cycle member); for an
acyclic linear chain of any length `N`, `validate` reports zero
`circular_reference` errors. -/
theorem validate_circular_spec (N : Nat) :
    (validate cycleGraphC1).filter isCircularError =
      [ValidationError.circular_reference "A",
       ValidationError.circular_reference "B",
       ValidationError.circular_reference "C"] ∧
    (validate (chainGraph N)).countP isCircularError = 0 := by
  constructor
  · decide
  · rw [validate]
    simp only [List.countP_append]
    rw [countP_orphanErrors, countP_inconsistentErrors, countP_orphanGroupErrors,
      circularErrors_chain, show editGroupErrors (chainGraph N) = [] from rfl]
    rfl
